import Mathlib

/- Shallow embedding of the cheap-ruler crate (src/lib.rs): a ruler holding two
   scale multipliers derived from a reference latitude, and the geodesic
   approximation operations built on them.  Machine floats (f64) are modelled
   by real numbers; panics and absent results are modelled by Option. -/

namespace CheapRulerSpec

noncomputable section

/-- Equatorial radius in km (constant RE in lib.rs). -/
def RE : ℝ := 6378.137

/-- Flattening (constant FE in lib.rs). -/
def FE : ℝ := 1 / 298.257223563

/-- Eccentricity squared (constant E2 in lib.rs). -/
def E2 : ℝ := FE * (2 - FE)

/-- Degree-to-radian factor (constant RAD in lib.rs). -/
def RAD : ℝ := Real.pi / 180

/-- Modelled from the spec: the DistanceUnit enumeration (module distance_unit
    is declared in lib.rs but its file is not under src/); closed set of
    supported linear units, section 6 of the spec. -/
inductive DistanceUnit
  | Kilometers
  | Miles
  | NauticalMiles
  | Meters
  | Yards
  | Feet
  | Inches
  deriving DecidableEq

/-- Modelled from the spec: kilometers-per-unit conversion factors, from the
    unit-selector table in section 6 of the spec (module distance_unit is not
    under src/). -/
def conversion_factor_kilometers : DistanceUnit → ℝ
  | DistanceUnit.Kilometers => 1
  | DistanceUnit.Miles => 1000 / 1609.344
  | DistanceUnit.NauticalMiles => 1000 / 1852
  | DistanceUnit.Meters => 1000
  | DistanceUnit.Yards => 1000 / 0.9144
  | DistanceUnit.Feet => 1000 / 0.3048
  | DistanceUnit.Inches => 1000 / 0.0254

/-- Geographic point, x = longitude first, y = latitude (geo_types Point). -/
@[ext]
structure Point where
  lng : ℝ
  lat : ℝ

/-- Projection result (point_on_line module): projected point, start index of
    the containing segment, and fractional position t along that segment. -/
structure PointOnLine where
  point : Point
  index : ℕ
  t : ℝ

/-- The ruler: unit-scaled multipliers kx, ky; unit-independent curvature
    factors dkx, dky; and the configured distance unit (struct CheapRuler). -/
@[ext]
structure CheapRuler where
  kx : ℝ
  ky : ℝ
  dkx : ℝ
  dky : ℝ
  distance_unit : DistanceUnit

/-- Helper computing the unit-scaled multipliers from the curvature factors
    (fn calculate_multipliers in lib.rs). -/
def calculate_multipliers (distance_unit : DistanceUnit) (dkx dky : ℝ) : ℝ × ℝ :=
  let mul := conversion_factor_kilometers distance_unit * RAD * RE
  (mul * dkx, mul * dky)

/-- Constructor from a reference latitude and a unit (CheapRuler::new). -/
def CheapRuler.new (latitude : ℝ) (distance_unit : DistanceUnit) : CheapRuler :=
  let coslat := Real.cos (latitude * RAD)
  let w2 := 1 / (1 - E2 * (1 - coslat * coslat))
  let w := Real.sqrt w2
  let dkx := w * coslat
  let dky := w * w2 * (1 - E2)
  let m := calculate_multipliers distance_unit dkx dky
  { kx := m.1, ky := m.2, dkx := dkx, dky := dky, distance_unit := distance_unit }

/-- Constructor from Web-Mercator tile coordinates (CheapRuler::from_tile);
    the assertion failure for zoom z >= 32 is modelled as none. -/
def CheapRuler.from_tile (y z : ℕ) (distance_unit : DistanceUnit) : Option CheapRuler :=
  if z < 32 then
    let n := Real.pi * (1 - 2 * ((y : ℝ) + 0.5) / ((2 : ℝ) ^ z))
    some (CheapRuler.new (Real.arctan (Real.sinh n) / RAD) distance_unit)
  else
    none

/-- In-place unit change (CheapRuler::change_unit), modelled as returning the
    updated ruler value: recomputes kx, ky from the retained dkx, dky. -/
def CheapRuler.change_unit (r : CheapRuler) (distance_unit : DistanceUnit) : CheapRuler :=
  let m := calculate_multipliers distance_unit r.dkx r.dky
  { kx := m.1, ky := m.2, dkx := r.dkx, dky := r.dky, distance_unit := distance_unit }

/-- Copying unit change (CheapRuler::clone_with_unit): same computation but
    leaves the original ruler untouched. -/
def CheapRuler.clone_with_unit (r : CheapRuler) (distance_unit : DistanceUnit) : CheapRuler :=
  let m := calculate_multipliers distance_unit r.dkx r.dky
  { kx := m.1, ky := m.2, dkx := r.dkx, dky := r.dky, distance_unit := distance_unit }

/-- Round to the nearest integer, ties to even: the rounding used by the IEEE
    754 remainder operation (float_extras::f64::remainder). -/
def roundHalfEven (x : ℝ) : ℤ :=
  if Int.fract x = 1 / 2 then (if Even ⌊x⌋ then ⌊x⌋ else ⌊x⌋ + 1) else round x

/-- IEEE 754 remainder over the reals: x minus y times the integer nearest to
    x / y, ties to even (float_extras::f64::remainder). -/
def ieee_remainder (x y : ℝ) : ℝ := x - y * (roundHalfEven (x / y) : ℤ)

/-- Signed shortest longitude difference (fn long_diff in lib.rs):
    remainder(a - b, 360). -/
def long_diff (a b : ℝ) : ℝ := ieee_remainder (a - b) 360

/-- Squared approximate distance (CheapRuler::square_distance). -/
def CheapRuler.square_distance (r : CheapRuler) (a b : Point) : ℝ :=
  let dx := long_diff a.lng b.lng * r.kx
  let dy := (a.lat - b.lat) * r.ky
  dx * dx + dy * dy

/-- Approximate distance (CheapRuler::distance). -/
def CheapRuler.distance (r : CheapRuler) (a b : Point) : ℝ :=
  Real.sqrt (r.square_distance a b)

/-- Two-argument arctangent with the usual quadrant conventions, the real
    counterpart of f64::atan2 (signed zeros do not exist over the reals). -/
def atan2 (y x : ℝ) : ℝ :=
  if 0 < x then Real.arctan (y / x)
  else if x < 0 then
    (if 0 ≤ y then Real.arctan (y / x) + Real.pi else Real.arctan (y / x) - Real.pi)
  else
    (if 0 < y then Real.pi / 2 else if y < 0 then -(Real.pi / 2) else 0)

/-- Bearing between two points in degrees (CheapRuler::bearing); in Rust,
    dx.atan2(dy) computes atan2 with dx as the sine-side argument. -/
def CheapRuler.bearing (r : CheapRuler) (a b : Point) : ℝ :=
  let dx := long_diff b.lng a.lng * r.kx
  let dy := (b.lat - a.lat) * r.ky
  atan2 dx dy / RAD

/-- Linear interpolation between two points (fn interpolate in lib.rs). -/
def interpolate (a b : Point) (t : ℝ) : Point :=
  let dx := long_diff b.lng a.lng
  let dy := b.lat - a.lat
  ⟨a.lng + dx * t, a.lat + dy * t⟩

/-- Loop of CheapRuler::along: walk the segments accumulating distance; p0 is
    the vertex reached so far, so the value for an exhausted list is the last
    vertex of the line. -/
def along_loop (r : CheapRuler) (dist : ℝ) : ℝ → Point → List Point → Point
  | _, p0, [] => p0
  | sum, p0, p1 :: rest =>
    let d := r.distance p0 p1
    if sum + d > dist then interpolate p0 p1 ((dist - sum) / d)
    else along_loop r dist (sum + d) p1 rest

/-- Point at a given distance along a line (CheapRuler::along): none for the
    empty line, the first point when dist is not positive, otherwise the
    interpolated point inside the first segment whose cumulative length
    exceeds dist, or the last point when the line is shorter than dist. -/
def CheapRuler.along (r : CheapRuler) (line : List Point) (dist : ℝ) : Option Point :=
  match line with
  | [] => none
  | p :: rest => if dist ≤ 0 then some p else some (along_loop r dist 0 p rest)

/-- Clamp into the unit interval: 0f64.max(1f64.min(t)) in lib.rs. -/
def clamp01 (t : ℝ) : ℝ := max 0 (min 1 t)

/-- Per-segment step of CheapRuler::point_on_line: the candidate point (x, y)
    and the raw, unclamped parameter t for the segment from p0 to p1. -/
def pol_segment (r : CheapRuler) (pt p0 p1 : Point) : ℝ × ℝ × ℝ :=
  let x := p0.lng
  let y := p0.lat
  let dx := long_diff p1.lng x * r.kx
  let dy := (p1.lat - y) * r.ky
  if dx ≠ 0 ∨ dy ≠ 0 then
    let t := (long_diff pt.lng x * r.kx * dx + (pt.lat - y) * r.ky * dy) / (dx * dx + dy * dy)
    if 1 < t then (p1.lng, p1.lat, t)
    else if 0 < t then (x + dx / r.kx * t, y + dy / r.ky * t, t)
    else (x, y, t)
  else (x, y, 0)

/-- Running best candidate of the point_on_line scan: squared distance,
    coordinates, segment index and raw parameter of the closest point so far. -/
structure Best where
  d2 : ℝ
  x : ℝ
  y : ℝ
  i : ℕ
  t : ℝ

/-- Scan of CheapRuler::point_on_line over consecutive segments.  The Rust
    minimum starts at f64::INFINITY, which every finite squared distance beats,
    so the state before any segment has been examined is modelled as none. -/
def pol_loop (r : CheapRuler) (pt : Point) : ℕ → Option Best → Point → List Point → Option Best
  | _, best, _, [] => best
  | i, best, p0, p1 :: rest =>
    let s := pol_segment r pt p0 p1
    let d2 := r.square_distance pt ⟨s.1, s.2.1⟩
    let best2 : Option Best :=
      match best with
      | none => some ⟨d2, s.1, s.2.1, i, s.2.2⟩
      | some b => if d2 < b.d2 then some ⟨d2, s.1, s.2.1, i, s.2.2⟩ else some b
    pol_loop r pt (i + 1) best2 p1 rest

/-- Nearest point on a line (CheapRuler::point_on_line): none for an empty
    line; otherwise the minimum over segments, with the initial state
    (min coordinates and index zero) surviving when the line has no segment,
    and the final parameter clamped into the unit interval. -/
def CheapRuler.point_on_line (r : CheapRuler) (line : List Point) (pt : Point) : Option PointOnLine :=
  match line with
  | [] => none
  | p :: rest =>
    match pol_loop r pt 0 none p rest with
    | none => some ⟨⟨0, 0⟩, 0, clamp01 0⟩
    | some b => some ⟨⟨b.x, b.y⟩, b.i, clamp01 b.t⟩

/-- Slice of a line between the projections of two points
    (CheapRuler::line_slice).  Vector indexing that panics in Rust is modelled
    with get?; none models the panic.  The middle loop reads indices at most r2
    which the preceding get? has shown to be in bounds, so it uses getD. -/
def CheapRuler.line_slice (r : CheapRuler) (start stop : Point) (line : List Point) : Option (List Point) :=
  match r.point_on_line line start, r.point_on_line line stop with
  | none, _ => some []
  | some _, none => some []
  | some pol1, some pol2 =>
    let q :=
      if pol2.index < pol1.index ∨ (pol1.index = pol2.index ∧ pol2.t < pol1.t)
      then (pol2, pol1) else (pol1, pol2)
    let q1 := q.1
    let q2 := q.2
    let l := q1.index + 1
    let r2 := q2.index
    match line.get? l with
    | none => none
    | some vl =>
      let slice1 :=
        if ¬ (vl.lng = q1.point.lng ∧ vl.lat = q1.point.lat) ∧ l ≤ r2
        then [q1.point, vl] else [q1.point]
      let mids := (List.range (r2 - l)).map (fun k => line.getD (l + 1 + k) ⟨0, 0⟩)
      match line.get? r2 with
      | none => none
      | some vr =>
        let tail :=
          if ¬ (vr.lng = q2.point.lng ∧ vr.lat = q2.point.lat)
          then [q2.point] else []
        some (slice1 ++ mids ++ tail)

/-- Loop of fn sum_area in lib.rs: prev is the vertex at index k (initially the
    last vertex), and each step adds the shoelace term of the current vertex
    against prev. -/
def sum_area_loop (prev : Point) : List Point → ℝ
  | [] => 0
  | p :: rest => (p.lng - prev.lng) * (p.lat + prev.lat) + sum_area_loop p rest

/-- Shoelace sum of a ring (fn sum_area in lib.rs).  The Rust code computes
    line_len - 1 on a usize before the loop, which underflows (a panic under
    overflow checks) for the empty ring; that failure is modelled as none. -/
def sum_area (ring : List Point) : Option ℝ :=
  match ring.getLast? with
  | none => none
  | some last => some (sum_area_loop last ring)

/-- Shoelace sum as a plain value (zero for the empty ring), used to state
    properties of sum_area on non-empty rings. -/
def shoelace_sum (ring : List Point) : ℝ := (sum_area ring).getD 0

/-- Polygon: exterior ring plus interior rings (geo_types Polygon). -/
structure Polygon where
  exterior : List Point
  interiors : List (List Point)

/-- Interior subtraction loop of CheapRuler::area: subtract the shoelace sum of
    every interior ring from the accumulator. -/
def sub_holes (acc : ℝ) : List (List Point) → Option ℝ
  | [] => some acc
  | ring :: rest =>
    match sum_area ring with
    | none => none
    | some s => sub_holes (acc - s) rest

/-- Polygon area (CheapRuler::area): shoelace sum of the exterior minus the
    shoelace sums of the interiors, absolute value, halved, scaled by kx * ky;
    none models the sum_area failure on an empty ring. -/
def CheapRuler.area (r : CheapRuler) (polygon : Polygon) : Option ℝ :=
  match sum_area polygon.exterior with
  | none => none
  | some ext =>
    match sub_holes ext polygon.interiors with
    | none => none
    | some s => some (|s| / 2 * r.kx * r.ky)

/-- Rulers constructible through the public API: by new or from_tile, or by a
    unit change of a constructible ruler. -/
inductive Reachable : CheapRuler → Prop
  | of_new : ∀ latitude u, Reachable (CheapRuler.new latitude u)
  | of_tile : ∀ y z u r, CheapRuler.from_tile y z u = some r → Reachable r
  | of_change : ∀ r u, Reachable r → Reachable (r.change_unit u)
  | of_clone : ∀ r u, Reachable r → Reachable (r.clone_with_unit u)

/-- Invariant relating the unit-scaled multipliers to the curvature factors. -/
def multipliers_invariant (r : CheapRuler) : Prop :=
  r.kx = conversion_factor_kilometers r.distance_unit * RAD * RE * r.dkx ∧
  r.ky = conversion_factor_kilometers r.distance_unit * RAD * RE * r.dky

/-- Rounding to nearest with ties to even moves a real by at most one half. -/
lemma abs_sub_roundHalfEven (x : ℝ) : |x - (roundHalfEven x : ℤ)| ≤ 1 / 2 := by
  unfold roundHalfEven
  by_cases h : Int.fract x = 1 / 2
  · unfold Int.fract at h
    rw [if_pos (by unfold Int.fract; exact h)]
    by_cases he : Even ⌊x⌋
    · rw [if_pos he, show x - (⌊x⌋ : ℝ) = 1 / 2 from h, abs_le]
      constructor <;> norm_num
    · rw [if_neg he]
      push_cast
      rw [show x - ((⌊x⌋ : ℝ) + 1) = x - (⌊x⌋ : ℝ) - 1 by ring, h, abs_le]
      constructor <;> norm_num
  · rw [if_neg h]
    exact abs_sub_round x

/-- The longitude difference is a representative of the difference modulo 360
    lying between minus 180 and 180. -/
lemma long_diff_bounds (p q : ℝ) : -180 ≤ long_diff p q ∧ long_diff p q ≤ 180 := by
  have h := abs_sub_roundHalfEven ((p - q) / 360)
  rw [abs_le] at h
  have hpq : p - q = 360 * ((p - q) / 360) := by ring
  unfold long_diff ieee_remainder
  constructor <;> nlinarith [h.1, h.2]

/-- On inputs whose difference already lies between minus 180 and 180, the
    longitude difference is plain subtraction (both endpoints included: the
    tie-to-even rounding sends one half and minus one half to zero). -/
lemma long_diff_eq_self {a b : ℝ} (h1 : -180 ≤ a - b) (h2 : a - b ≤ 180) :
    long_diff a b = a - b := by
  suffices hn : roundHalfEven ((a - b) / 360) = 0 by
    unfold long_diff ieee_remainder
    rw [hn]
    push_cast
    ring
  have hx1 : -(1 / 2) ≤ (a - b) / 360 := by linarith
  have hx2 : (a - b) / 360 ≤ 1 / 2 := by linarith
  unfold roundHalfEven
  by_cases h : Int.fract ((a - b) / 360) = 1 / 2
  · rw [if_pos h]
    unfold Int.fract at h
    have hf : (⌊(a - b) / 360⌋ : ℝ) = (a - b) / 360 - 1 / 2 := by linarith
    have hl : (-1 : ℤ) ≤ ⌊(a - b) / 360⌋ := by
      have : (-1 : ℝ) ≤ (⌊(a - b) / 360⌋ : ℝ) := by rw [hf]; linarith
      exact_mod_cast this
    have hr : ⌊(a - b) / 360⌋ ≤ 0 := by
      have : (⌊(a - b) / 360⌋ : ℝ) ≤ 0 := by rw [hf]; linarith
      exact_mod_cast this
    have hcases : ⌊(a - b) / 360⌋ = -1 ∨ ⌊(a - b) / 360⌋ = 0 := by omega
    rcases hcases with hc | hc
    · rw [hc]
      norm_num [Int.even_iff]
    · rw [hc]
      norm_num
  · rw [if_neg h]
    rw [round_eq_zero_iff]
    refine Set.mem_Ico.mpr ⟨hx1, ?_⟩
    rcases lt_or_eq_of_le hx2 with hlt | heq
    · exact hlt
    · exfalso
      apply h
      rw [heq]
      unfold Int.fract
      rw [show ⌊(1 : ℝ) / 2⌋ = 0 by norm_num [Int.floor_eq_iff]]
      norm_num

/-- Any ruler built by new satisfies the multiplier invariant. -/
lemma multipliers_invariant_new (latitude : ℝ) (u : DistanceUnit) :
    multipliers_invariant (CheapRuler.new latitude u) := by
  unfold multipliers_invariant CheapRuler.new calculate_multipliers
  constructor <;> simp

/-- Every ruler constructible through the public API satisfies the
    multiplier invariant. -/
lemma invariant_of_reachable {r : CheapRuler} (h : Reachable r) :
    multipliers_invariant r := by
  induction h with
  | of_new latitude u => exact multipliers_invariant_new latitude u
  | of_tile y z u r heq =>
    unfold CheapRuler.from_tile at heq
    by_cases hz : z < 32
    · rw [if_pos hz] at heq
      have hr : CheapRuler.new (Real.arctan (Real.sinh (Real.pi * (1 - 2 * ((y : ℝ) + 0.5) / ((2 : ℝ) ^ z)))) / RAD) u = r := by
        injection heq
      rw [← hr]
      exact multipliers_invariant_new _ u
    · rw [if_neg hz] at heq
      cases heq
  | of_change r u _ _ =>
    unfold multipliers_invariant CheapRuler.change_unit calculate_multipliers
    constructor <;> simp
  | of_clone r u _ _ =>
    unfold multipliers_invariant CheapRuler.clone_with_unit calculate_multipliers
    constructor <;> simp

/-- C5 counterexample: at a difference of exactly minus 180 degrees the
    longitude difference returns minus 180 itself (the tie in the IEEE
    remainder rounds to the even quotient 0), so the claimed half-open range
    excluding minus 180 is wrong. -/
theorem C5_long_diff_neg180 :
    long_diff 0 180 = -180 ∧ ¬ (-180 < long_diff 0 180) := by
  have h := long_diff_eq_self (a := 0) (b := 180) (by norm_num) (by norm_num)
  rw [h]
  norm_num

/-- C5 (amended): long_diff p q is the signed remainder of p minus q modulo
    360 (it differs from p minus q by an integer multiple of 360) and lies in
    the closed interval from minus 180 to 180; the endpoint minus 180 can be
    attained, so the interval is closed on both sides rather than half-open. -/
theorem C5_long_diff_amended (p q : ℝ) :
    -180 ≤ long_diff p q ∧ long_diff p q ≤ 180 ∧
    ∃ k : ℤ, long_diff p q = (p - q) - 360 * (k : ℝ) := by
  refine ⟨(long_diff_bounds p q).1, (long_diff_bounds p q).2,
    ⟨roundHalfEven ((p - q) / 360), rfl⟩⟩

/-- C6: every ruler reachable through new, from_tile, change_unit or
    clone_with_unit satisfies the invariant kx equals conversion times RAD
    times RE times dkx (and symmetrically for ky), and a unit change leaves
    the curvature factors dkx and dky untouched, mutating only kx, ky and the
    stored unit. -/
theorem C6_multipliers_invariant (r : CheapRuler) (u : DistanceUnit)
    (h : Reachable r) :
    multipliers_invariant r ∧
    (r.change_unit u).dkx = r.dkx ∧ (r.change_unit u).dky = r.dky ∧
    (r.change_unit u).distance_unit = u ∧
    (r.clone_with_unit u).dkx = r.dkx ∧ (r.clone_with_unit u).dky = r.dky :=
  ⟨invariant_of_reachable h, rfl, rfl, rfl, rfl, rfl⟩

/-- C6 witness: the invariant instantiated at the ruler built at the equator
    in kilometers, with a change to miles. -/
theorem C6_multipliers_invariant_witness :
    multipliers_invariant (CheapRuler.new 0 DistanceUnit.Kilometers) ∧
    ((CheapRuler.new 0 DistanceUnit.Kilometers).change_unit DistanceUnit.Miles).dkx =
      (CheapRuler.new 0 DistanceUnit.Kilometers).dkx ∧
    ((CheapRuler.new 0 DistanceUnit.Kilometers).change_unit DistanceUnit.Miles).dky =
      (CheapRuler.new 0 DistanceUnit.Kilometers).dky ∧
    ((CheapRuler.new 0 DistanceUnit.Kilometers).change_unit DistanceUnit.Miles).distance_unit =
      DistanceUnit.Miles ∧
    ((CheapRuler.new 0 DistanceUnit.Kilometers).clone_with_unit DistanceUnit.Miles).dkx =
      (CheapRuler.new 0 DistanceUnit.Kilometers).dkx ∧
    ((CheapRuler.new 0 DistanceUnit.Kilometers).clone_with_unit DistanceUnit.Miles).dky =
      (CheapRuler.new 0 DistanceUnit.Kilometers).dky :=
  C6_multipliers_invariant (CheapRuler.new 0 DistanceUnit.Kilometers)
    DistanceUnit.Miles (Reachable.of_new 0 DistanceUnit.Kilometers)

/-- C10: changing the unit is exactly reversible on every reachable ruler:
    cloning to another unit and back restores all five fields, and likewise
    for the in-place unit change, because kx and ky are always recomputed by
    the same expression from the unchanged dkx and dky. -/
theorem C10_unit_change_roundtrip (r : CheapRuler) (u : DistanceUnit)
    (h : Reachable r) :
    (r.clone_with_unit u).clone_with_unit r.distance_unit = r ∧
    (r.change_unit u).change_unit r.distance_unit = r := by
  obtain ⟨hx, hy⟩ := invariant_of_reachable h
  rcases r with ⟨kx, ky, dkx, dky, du⟩
  simp only [CheapRuler.clone_with_unit, CheapRuler.change_unit,
    calculate_multipliers] at *
  constructor <;> · simp only [CheapRuler.mk.injEq]; exact ⟨hx.symm, hy.symm, trivial, trivial, trivial⟩

/-- C10 witness: the round trip instantiated at the ruler built at the
    equator in kilometers, via miles. -/
theorem C10_unit_change_roundtrip_witness :
    ((CheapRuler.new 0 DistanceUnit.Kilometers).clone_with_unit
        DistanceUnit.Miles).clone_with_unit
      (CheapRuler.new 0 DistanceUnit.Kilometers).distance_unit =
      CheapRuler.new 0 DistanceUnit.Kilometers ∧
    ((CheapRuler.new 0 DistanceUnit.Kilometers).change_unit
        DistanceUnit.Miles).change_unit
      (CheapRuler.new 0 DistanceUnit.Kilometers).distance_unit =
      CheapRuler.new 0 DistanceUnit.Kilometers :=
  C10_unit_change_roundtrip (CheapRuler.new 0 DistanceUnit.Kilometers)
    DistanceUnit.Miles (Reachable.of_new 0 DistanceUnit.Kilometers)

/-- C2: on a one-point line the scan loop of point_on_line never runs, the
    early-return guard only rejects the empty line, and the function returns
    the initial minimum state: the origin, a point not on the line, instead of
    the absent result that the claim, the spec and the function documentation
    describe. -/
theorem C2_point_on_line_one_point_returns_origin :
    (CheapRuler.new 0 DistanceUnit.Kilometers).point_on_line [⟨5, 5⟩] ⟨1, 1⟩ =
      some ⟨⟨0, 0⟩, 0, 0⟩ := by
  simp only [CheapRuler.point_on_line, pol_loop, clamp01]
  norm_num

/-- C1: on a one-point line both projections are present (the point_on_line
    guard only rejects the empty line), so line_slice goes on to index the
    line at position 1, which is out of bounds: the call panics (modelled as
    none) instead of returning an empty line. -/
theorem C1_line_slice_panics_on_one_point_line :
    (CheapRuler.new 0 DistanceUnit.Kilometers).line_slice ⟨1, 1⟩ ⟨2, 2⟩ [⟨5, 5⟩] =
      none := by
  simp only [CheapRuler.line_slice, CheapRuler.point_on_line, pol_loop]
  norm_num

/-- C3 counterexample: on the empty line, along returns an absent result, not
    the (nonexistent) first point the claim describes. -/
theorem C3_along_empty_is_none :
    (CheapRuler.new 0 DistanceUnit.Kilometers).along [] 0 = none := rfl

/-- C3 (amended): along returns an absent result for the empty line; for a
    non-empty line it returns the first point whenever the distance is not
    positive. -/
theorem C3_along_amended (r : CheapRuler) (line : List Point) (d : ℝ) :
    (line = [] → r.along line d = none) ∧
    (∀ p rest, line = p :: rest → d ≤ 0 → r.along line d = some p) := by
  constructor
  · rintro rfl
    rfl
  · rintro p rest rfl hd
    simp only [CheapRuler.along]
    rw [if_pos hd]

/-- C3 witness: the amended claim instantiated on a one-point line with a
    negative distance, and on the empty line. -/
theorem C3_along_amended_witness :
    (CheapRuler.new 0 DistanceUnit.Kilometers).along [⟨1, 2⟩] (-1) =
      some ⟨1, 2⟩ :=
  (C3_along_amended (CheapRuler.new 0 DistanceUnit.Kilometers) [⟨1, 2⟩] (-1)).2
    ⟨1, 2⟩ [] rfl (by norm_num)

/-- The shoelace sum fails exactly on the empty ring. -/
lemma sum_area_eq_none_iff (ring : List Point) :
    sum_area ring = none ↔ ring = [] := by
  unfold sum_area
  rcases hr : ring.getLast? with _ | last
  · simp [List.getLast?_eq_none_iff.mp hr]
  · have hne : ring ≠ [] := by
      intro h0
      subst h0
      simp at hr
    simp [hne]

/-- On a non-empty ring the shoelace sum returns its plain value. -/
lemma sum_area_eq_some {ring : List Point} (h : ring ≠ []) :
    sum_area ring = some (shoelace_sum ring) := by
  rcases ho : sum_area ring with _ | v
  · exact absurd ((sum_area_eq_none_iff ring).mp ho) h
  · unfold shoelace_sum
    rw [ho]
    rfl

/-- Interior subtraction fails exactly when some interior ring is empty. -/
lemma sub_holes_none_iff (acc : ℝ) (ints : List (List Point)) :
    sub_holes acc ints = none ↔ ∃ ring ∈ ints, ring = [] := by
  induction ints generalizing acc with
  | nil => simp [sub_holes]
  | cons ring rest ih =>
    unfold sub_holes
    rcases h : sum_area ring with _ | s
    · simp [(sum_area_eq_none_iff ring).mp h]
    · have hne : ring ≠ [] := by
        intro h0
        rw [(sum_area_eq_none_iff ring).mpr h0] at h
        cases h
      simp [ih, hne]

/-- With every interior ring non-empty, interior subtraction subtracts the
    signed shoelace sum of each hole from the accumulator. -/
lemma sub_holes_eq (acc : ℝ) (ints : List (List Point))
    (h : ∀ ring ∈ ints, ring ≠ []) :
    sub_holes acc ints = some (acc - (ints.map shoelace_sum).sum) := by
  induction ints generalizing acc with
  | nil => simp [sub_holes]
  | cons ring rest ih =>
    have hr := sum_area_eq_some (h ring (by simp))
    simp only [sub_holes, hr]
    rw [ih (acc - shoelace_sum ring) (fun x hx => h x (by simp [hx]))]
    congr 1
    simp
    ring

/-- C9: area is total exactly on the polygons whose rings are all non-empty;
    a polygon containing an empty ring makes it fail (the unsigned length
    minus one in sum_area underflows, a panic under overflow checks) instead
    of contributing zero to the sum. -/
theorem C9_area_total_iff_rings_nonempty (r : CheapRuler) (poly : Polygon) :
    r.area poly = none ↔
      poly.exterior = [] ∨ ∃ ring ∈ poly.interiors, ring = [] := by
  unfold CheapRuler.area
  rcases he : sum_area poly.exterior with _ | ext
  · simp [(sum_area_eq_none_iff _).mp he]
  · have hne : poly.exterior ≠ [] := by
      intro h0
      rw [(sum_area_eq_none_iff _).mpr h0] at he
      cases he
    rcases hs : sub_holes ext poly.interiors with _ | s
    · simp [he, hs, hne, (sub_holes_none_iff ext _).mp hs]
    · have hno : ¬ ∃ ring ∈ poly.interiors, ring = [] := by
        intro hex
        rw [(sub_holes_none_iff ext _).mpr hex] at hs
        cases hs
      simp [he, hs, hne, hno]

/-- Mapping absolute value over a list of nonnegative reals keeps the sum. -/
lemma sum_abs_of_nonneg (l : List ℝ) (h : ∀ x ∈ l, 0 ≤ x) :
    (l.map (fun x => |x|)).sum = l.sum := by
  induction l with
  | nil => rfl
  | cons a t ih =>
    simp only [List.map_cons, List.sum_cons]
    rw [abs_of_nonneg (h a (by simp)), ih (fun x hx => h x (by simp [hx]))]

/-- Mapping absolute value over a list of nonpositive reals negates the sum. -/
lemma sum_abs_of_nonpos (l : List ℝ) (h : ∀ x ∈ l, x ≤ 0) :
    (l.map (fun x => |x|)).sum = -l.sum := by
  induction l with
  | nil => simp
  | cons a t ih =>
    simp only [List.map_cons, List.sum_cons]
    rw [abs_of_nonpos (h a (by simp)), ih (fun x hx => h x (by simp [hx]))]
    ring

/-- Subtracting a sum of reals that all share the sign of e, of total
    magnitude at most that of e, turns the absolute value of the difference
    into a difference of absolute values. -/
lemma abs_sub_sum_of_same_sign (e : ℝ) (l : List ℝ)
    (h : (0 ≤ e ∧ ∀ x ∈ l, 0 ≤ x) ∨ (e ≤ 0 ∧ ∀ x ∈ l, x ≤ 0))
    (hm : (l.map (fun x => |x|)).sum ≤ |e|) :
    |e - l.sum| = |e| - (l.map (fun x => |x|)).sum := by
  rcases h with ⟨he, hl⟩ | ⟨he, hl⟩
  · rw [sum_abs_of_nonneg l hl] at hm ⊢
    rw [abs_of_nonneg he] at hm ⊢
    rw [abs_of_nonneg (by linarith)]
  · rw [sum_abs_of_nonpos l hl] at hm ⊢
    rw [abs_of_nonpos he] at hm ⊢
    rw [abs_of_nonpos (by linarith)]
    ring

/-- Multipliers of the ruler built at the equator in kilometers: the cosine
    is one, the curvature radicand is one, so kx and ky come out in closed
    form. -/
lemma new_equator_multipliers :
    (CheapRuler.new 0 DistanceUnit.Kilometers).kx = RAD * RE ∧
    (CheapRuler.new 0 DistanceUnit.Kilometers).ky = RAD * RE * (1 - E2) := by
  unfold CheapRuler.new calculate_multipliers conversion_factor_kilometers
  norm_num [Real.sqrt_one]

/-- C4 (amended): area computes the absolute value of the signed shoelace sum
    of the exterior minus the signed shoelace sums of the holes, halved and
    scaled by kx times ky; this equals exterior shoelace area minus the hole
    shoelace areas exactly when every hole winds in the same direction as the
    exterior (same sign of the signed sums) and the hole magnitudes do not
    exceed the exterior magnitude, so the result does depend on the winding
    direction of the rings. -/
theorem C4_area_amended (r : CheapRuler) (ext : List Point)
    (ints : List (List Point)) (hext : ext ≠ [])
    (hints : ∀ ring ∈ ints, ring ≠ [])
    (hsgn : (0 ≤ shoelace_sum ext ∧ ∀ ring ∈ ints, 0 ≤ shoelace_sum ring) ∨
            (shoelace_sum ext ≤ 0 ∧ ∀ ring ∈ ints, shoelace_sum ring ≤ 0))
    (hmag : (ints.map (fun ring => |shoelace_sum ring|)).sum ≤ |shoelace_sum ext|) :
    r.area ⟨ext, ints⟩ =
      some ((|shoelace_sum ext| - (ints.map (fun ring => |shoelace_sum ring|)).sum) / 2
        * r.kx * r.ky) := by
  have hmap : ((ints.map shoelace_sum).map (fun x => |x|)).sum =
      (ints.map (fun ring => |shoelace_sum ring|)).sum := by
    rw [List.map_map]
    rfl
  have habs : |shoelace_sum ext - (ints.map shoelace_sum).sum| =
      |shoelace_sum ext| - (ints.map (fun ring => |shoelace_sum ring|)).sum := by
    have h1 := abs_sub_sum_of_same_sign (shoelace_sum ext) (ints.map shoelace_sum) ?_ ?_
    · rw [h1, hmap]
    · rcases hsgn with ⟨h0, hall⟩ | ⟨h0, hall⟩
      · exact Or.inl ⟨h0, by simpa using hall⟩
      · exact Or.inr ⟨h0, by simpa using hall⟩
    · rw [hmap]
      exact hmag
  simp only [CheapRuler.area, sum_area_eq_some hext,
    sub_holes_eq (shoelace_sum ext) ints hints]
  rw [habs]

/-- C4 counterexample: at the equator ruler, a four-by-four exterior square
    with a unit square hole gives a different area depending on the winding
    direction of the hole (17 versus the true 15 square units in degree
    scale), because the code subtracts the signed shoelace sum of the hole,
    not its winding-independent area: the claim that no assumption is made on
    ring direction is wrong. -/
theorem C4_area_winding_dependent :
    (CheapRuler.new 0 DistanceUnit.Kilometers).area
        ⟨[⟨0, 0⟩, ⟨4, 0⟩, ⟨4, 4⟩, ⟨0, 4⟩], [[⟨1, 2⟩, ⟨2, 2⟩, ⟨2, 1⟩, ⟨1, 1⟩]]⟩ =
      some (17 * ((RAD * RE) * (RAD * RE * (1 - E2)))) ∧
    (CheapRuler.new 0 DistanceUnit.Kilometers).area
        ⟨[⟨0, 0⟩, ⟨4, 0⟩, ⟨4, 4⟩, ⟨0, 4⟩], [[⟨1, 1⟩, ⟨2, 1⟩, ⟨2, 2⟩, ⟨1, 2⟩]]⟩ =
      some (15 * ((RAD * RE) * (RAD * RE * (1 - E2)))) ∧
    (CheapRuler.new 0 DistanceUnit.Kilometers).area
        ⟨[⟨0, 0⟩, ⟨4, 0⟩, ⟨4, 4⟩, ⟨0, 4⟩], [[⟨1, 2⟩, ⟨2, 2⟩, ⟨2, 1⟩, ⟨1, 1⟩]]⟩ ≠
      (CheapRuler.new 0 DistanceUnit.Kilometers).area
        ⟨[⟨0, 0⟩, ⟨4, 0⟩, ⟨4, 4⟩, ⟨0, 4⟩], [[⟨1, 1⟩, ⟨2, 1⟩, ⟨2, 2⟩, ⟨1, 2⟩]]⟩ := by
  obtain ⟨hkx, hky⟩ := new_equator_multipliers
  have hext : sum_area ([⟨0, 0⟩, ⟨4, 0⟩, ⟨4, 4⟩, ⟨0, 4⟩] : List Point) = some (-32) := by
    simp [sum_area, sum_area_loop, List.getLast?_cons_cons, List.getLast?_singleton]
    norm_num
  have hcw : sum_area ([⟨1, 2⟩, ⟨2, 2⟩, ⟨2, 1⟩, ⟨1, 1⟩] : List Point) = some 2 := by
    simp [sum_area, sum_area_loop, List.getLast?_cons_cons, List.getLast?_singleton]
    norm_num
  have hccw : sum_area ([⟨1, 1⟩, ⟨2, 1⟩, ⟨2, 2⟩, ⟨1, 2⟩] : List Point) = some (-2) := by
    simp [sum_area, sum_area_loop, List.getLast?_cons_cons, List.getLast?_singleton]
    norm_num
  have e1 : (CheapRuler.new 0 DistanceUnit.Kilometers).area
      ⟨[⟨0, 0⟩, ⟨4, 0⟩, ⟨4, 4⟩, ⟨0, 4⟩], [[⟨1, 2⟩, ⟨2, 2⟩, ⟨2, 1⟩, ⟨1, 1⟩]]⟩ =
      some (17 * ((RAD * RE) * (RAD * RE * (1 - E2)))) := by
    simp only [CheapRuler.area, hext, hcw, sub_holes, hkx, hky]
    rw [show (-32 - 2 : ℝ) = -34 by norm_num,
      show |(-34 : ℝ)| = 34 by rw [abs_of_nonpos (by norm_num)]; norm_num]
    ring_nf
  have e2 : (CheapRuler.new 0 DistanceUnit.Kilometers).area
      ⟨[⟨0, 0⟩, ⟨4, 0⟩, ⟨4, 4⟩, ⟨0, 4⟩], [[⟨1, 1⟩, ⟨2, 1⟩, ⟨2, 2⟩, ⟨1, 2⟩]]⟩ =
      some (15 * ((RAD * RE) * (RAD * RE * (1 - E2)))) := by
    simp only [CheapRuler.area, hext, hccw, sub_holes, hkx, hky]
    rw [show (-32 - -2 : ℝ) = -30 by norm_num,
      show |(-30 : ℝ)| = 30 by rw [abs_of_nonpos (by norm_num)]; norm_num]
    ring_nf
  refine ⟨e1, e2, ?_⟩
  rw [e1, e2]
  have hKpos : 0 < (RAD * RE) * (RAD * RE * (1 - E2)) := by
    have hπ := Real.pi_pos
    have h2 : (0 : ℝ) < 1 - E2 := by norm_num [E2, FE]
    have h3 : (0 : ℝ) < RAD := by unfold RAD; positivity
    have h4 : (0 : ℝ) < RE := by norm_num [RE]
    positivity
  intro hcontra
  rw [Option.some.injEq] at hcontra
  linarith

/-- C4 witness: the amended area formula instantiated at the equator ruler on
    the four-by-four square with a unit hole wound the same way as the
    exterior. -/
theorem C4_area_amended_witness :
    (CheapRuler.new 0 DistanceUnit.Kilometers).area
        ⟨[⟨0, 0⟩, ⟨4, 0⟩, ⟨4, 4⟩, ⟨0, 4⟩], [[⟨1, 1⟩, ⟨2, 1⟩, ⟨2, 2⟩, ⟨1, 2⟩]]⟩ =
      some ((|shoelace_sum [⟨0, 0⟩, ⟨4, 0⟩, ⟨4, 4⟩, ⟨0, 4⟩]| -
          (([[⟨1, 1⟩, ⟨2, 1⟩, ⟨2, 2⟩, ⟨1, 2⟩]].map
            (fun ring => |shoelace_sum ring|)).sum)) / 2
        * (CheapRuler.new 0 DistanceUnit.Kilometers).kx
        * (CheapRuler.new 0 DistanceUnit.Kilometers).ky) :=
  C4_area_amended (CheapRuler.new 0 DistanceUnit.Kilometers)
    [⟨0, 0⟩, ⟨4, 0⟩, ⟨4, 4⟩, ⟨0, 4⟩] [[⟨1, 1⟩, ⟨2, 1⟩, ⟨2, 2⟩, ⟨1, 2⟩]]
    (by simp) (by simp)
    (Or.inr ⟨by
      norm_num [shoelace_sum, sum_area, sum_area_loop, List.getLast?_cons_cons,
        List.getLast?_singleton], by
      intro ring hring
      simp at hring
      subst hring
      norm_num [shoelace_sum, sum_area, sum_area_loop, List.getLast?_cons_cons,
        List.getLast?_singleton]⟩)
    (by
      norm_num [shoelace_sum, sum_area, sum_area_loop, List.getLast?_cons_cons,
        List.getLast?_singleton])

/-- C8: the parameter t in any present result of point_on_line lies in the
    closed unit interval, the final clamp guaranteeing the bounds whatever
    the raw per-segment parameter was. -/
theorem C8_t_clamped (r : CheapRuler) (line : List Point) (pt : Point)
    (pol : PointOnLine) (h2 : 2 ≤ line.length)
    (h : r.point_on_line line pt = some pol) : 0 ≤ pol.t ∧ pol.t ≤ 1 := by
  have hcl : ∀ u : ℝ, 0 ≤ clamp01 u ∧ clamp01 u ≤ 1 := fun u =>
    ⟨le_max_left 0 _, max_le (by norm_num) (min_le_left 1 u)⟩
  cases line with
  | nil => cases h
  | cons p rest =>
    simp only [CheapRuler.point_on_line] at h
    rcases hb : pol_loop r pt 0 none p rest with _ | b <;> rw [hb] at h
    · obtain rfl : pol = ⟨⟨0, 0⟩, 0, clamp01 0⟩ := (Option.some.inj h).symm
      exact hcl 0
    · obtain rfl : pol = ⟨⟨b.x, b.y⟩, b.i, clamp01 b.t⟩ := (Option.some.inj h).symm
      exact hcl b.t

/-- C8 witness: the clamped parameter on a concrete two-point line, with the
    query point projecting to the middle of the only segment. -/
theorem C8_t_clamped_witness :
    0 ≤ (PointOnLine.mk ⟨1 / 2, 0⟩ 0 (1 / 2)).t ∧
      (PointOnLine.mk ⟨1 / 2, 0⟩ 0 (1 / 2)).t ≤ 1 :=
  C8_t_clamped ⟨1, 1, 1, 1, DistanceUnit.Kilometers⟩ [⟨0, 0⟩, ⟨1, 0⟩]
    ⟨1 / 2, 0⟩ ⟨⟨1 / 2, 0⟩, 0, 1 / 2⟩ (by norm_num) (by
      have e1 : long_diff 1 0 = 1 := by
        have h := long_diff_eq_self (a := 1) (b := 0) (by norm_num) (by norm_num)
        rw [h]
        norm_num
      have e2 : long_diff (1 / 2) 0 = 1 / 2 := by
        have h := long_diff_eq_self (a := 1 / 2) (b := 0) (by norm_num) (by norm_num)
        rw [h]
        norm_num
      have e3 : long_diff (1 / 2) (1 / 2) = 0 := by
        have h := long_diff_eq_self (a := 1 / 2) (b := 1 / 2) (by norm_num) (by norm_num)
        rw [h]
        norm_num
      simp only [CheapRuler.point_on_line, pol_loop, pol_segment,
        CheapRuler.square_distance, clamp01, e1, e2, e3]
      norm_num [min_def, max_def])

/-- Closed form of the longitude multiplier produced by new. -/
lemma new_kx_eq (lat : ℝ) (u : DistanceUnit) :
    (CheapRuler.new lat u).kx =
      conversion_factor_kilometers u * RAD * RE *
        (Real.sqrt (1 / (1 - E2 * (1 - Real.cos (lat * RAD) * Real.cos (lat * RAD)))) *
          Real.cos (lat * RAD)) := rfl

set_option maxHeartbeats 1000000 in
/-- Numeric bounds on the longitude multiplier of the ruler of the concrete
    spec scenario (latitude 44.7192003 degrees, meters): it is positive and
    at most 80000 meters per degree. -/
lemma scenario_kx_bounds :
    0 < (CheapRuler.new 44.7192003 DistanceUnit.Meters).kx ∧
    (CheapRuler.new 44.7192003 DistanceUnit.Meters).kx ≤ 80000 := by
  rw [new_kx_eq]
  simp only [conversion_factor_kilometers]
  have hπl : (3.141592 : ℝ) < Real.pi := Real.pi_gt_d6
  have hπu : Real.pi < 3.141593 := Real.pi_lt_d6
  have hRAD_lo : (0.0174532 : ℝ) ≤ RAD := by unfold RAD; linarith
  have hRAD_hi : RAD ≤ 0.0174533 := by unfold RAD; linarith
  set x := 44.7192003 * RAD with hxdef
  have hx_lo : 0.78049 ≤ x := by rw [hxdef]; nlinarith [hRAD_lo]
  have hx_hi : x ≤ 0.78050 := by rw [hxdef]; nlinarith [hRAD_hi]
  have hx_nonneg : (0 : ℝ) ≤ x := by linarith
  have hxabs : |x| ≤ 1 := by rw [abs_of_nonneg hx_nonneg]; linarith
  have hcb := Real.cos_bound hxabs
  rw [abs_of_nonneg hx_nonneg, abs_le] at hcb
  obtain ⟨hcb1, hcb2⟩ := hcb
  set c := Real.cos x with hcdef
  have hx2_lo : 0.6091 ≤ x ^ 2 := by nlinarith
  have hx2_hi : x ^ 2 ≤ 0.60919 := by nlinarith
  have hx4_hi : x ^ 4 ≤ 0.371113 := by nlinarith [hx2_hi, hx2_lo, sq_nonneg (x ^ 2 - 0.60919)]
  have hx4_lo : 0 ≤ x ^ 4 := by positivity
  have hc_hi : c ≤ 0.7148 := by nlinarith [hcb2, hx2_lo, hx4_hi]
  have hc_lo : 0.675 ≤ c := by nlinarith [hcb1, hx2_hi, hx4_hi]
  have hE2_lo : (0 : ℝ) < E2 := by norm_num [E2, FE]
  have hE2_hi : E2 ≤ 0.0067 := by norm_num [E2, FE]
  set d := 1 - E2 * (1 - c * c) with hddef
  have hc2_nonneg : 0 ≤ c * c := mul_self_nonneg c
  have hc2_le : c * c ≤ 1 := by nlinarith
  have hd_lo : 0.9933 ≤ d := by rw [hddef]; nlinarith
  have hd_hi : d ≤ 1 := by rw [hddef]; nlinarith
  have hd_pos : 0 < d := by linarith
  have hw2_lo : 1 ≤ 1 / d := by rw [le_div_iff₀ hd_pos]; linarith
  have hw2_hi : 1 / d ≤ 1.0068 := by rw [div_le_iff₀ hd_pos]; nlinarith
  have hw_lo : 1 ≤ Real.sqrt (1 / d) := by
    rw [Real.le_sqrt (by norm_num) (by positivity)]
    nlinarith
  have hw_hi : Real.sqrt (1 / d) ≤ 1.0034 := by
    rw [Real.sqrt_le_iff]
    constructor
    · norm_num
    · nlinarith
  have hRADpos : 0 < RAD := by unfold RAD; positivity
  have hwc_pos : 0 < Real.sqrt (1 / d) * c := mul_pos (by linarith) (by linarith)
  have hRR_pos : 0 < RAD * RE := mul_pos hRADpos (by norm_num [RE])
  constructor
  · nlinarith [mul_pos hRR_pos hwc_pos]
  · have hwc_hi : Real.sqrt (1 / d) * c ≤ 1.0034 * 0.7148 := by
      nlinarith [hw_lo, hc_lo, hw_hi, hc_hi]
    have hRADRE_hi : RAD * RE ≤ 111.3196 := by
      rw [show RE = 6378.137 from rfl]
      nlinarith [hRAD_hi]
    have hmul := mul_le_mul hRADRE_hi hwc_hi (le_of_lt hwc_pos)
      (by norm_num : (0 : ℝ) ≤ 111.3196)
    nlinarith [hmul]

/-- C7: at the ruler built at latitude 44.7192003 in meters, the two points
    of the spec scenario, which differ only in longitude, are less than 38
    meters apart and lie at bearing exactly 90 degrees (pure eastward
    displacement along a parallel). -/
theorem C7_distance_bearing_scenario :
    (CheapRuler.new 44.7192003 DistanceUnit.Meters).distance
        ⟨14.8901816, 44.7209699⟩ ⟨14.8905188, 44.7209699⟩ < 38 ∧
    (CheapRuler.new 44.7192003 DistanceUnit.Meters).bearing
        ⟨14.8901816, 44.7209699⟩ ⟨14.8905188, 44.7209699⟩ = 90 := by
  obtain ⟨hkpos, hkle⟩ := scenario_kx_bounds
  have hld1 : long_diff 14.8901816 14.8905188 = -0.0003372 := by
    rw [long_diff_eq_self (by norm_num) (by norm_num)]
    norm_num
  have hld2 : long_diff 14.8905188 14.8901816 = 0.0003372 := by
    rw [long_diff_eq_self (by norm_num) (by norm_num)]
    norm_num
  constructor
  · have hsd : (CheapRuler.new 44.7192003 DistanceUnit.Meters).square_distance
        ⟨14.8901816, 44.7209699⟩ ⟨14.8905188, 44.7209699⟩ =
        (0.0003372 * (CheapRuler.new 44.7192003 DistanceUnit.Meters).kx) ^ 2 := by
      simp only [CheapRuler.square_distance, hld1]
      ring_nf
    unfold CheapRuler.distance
    rw [hsd]
    have h38 : Real.sqrt ((0.0003372 * (CheapRuler.new 44.7192003 DistanceUnit.Meters).kx) ^ 2) =
        |0.0003372 * (CheapRuler.new 44.7192003 DistanceUnit.Meters).kx| :=
      Real.sqrt_sq_eq_abs _
    rw [h38, abs_of_pos (by nlinarith)]
    nlinarith
  · simp only [CheapRuler.bearing, hld2]
    have hdy : (44.7209699 - 44.7209699 : ℝ) *
        (CheapRuler.new 44.7192003 DistanceUnit.Meters).ky = 0 := by ring_nf
    rw [hdy]
    have hdx_pos : 0 < 0.0003372 * (CheapRuler.new 44.7192003 DistanceUnit.Meters).kx := by
      nlinarith
    unfold atan2
    rw [if_neg (lt_irrefl 0), if_neg (lt_irrefl 0), if_pos hdx_pos]
    unfold RAD
    have hπ : Real.pi ≠ 0 := Real.pi_ne_zero
    field_simp
    ring

end

end CheapRulerSpec
